import Mathlib

/-!
Shallow embedding of the KBKDF (NIST SP 800-108 style) derivation engine from
`src/kbkdf/src/lib.rs`.

Bytes are modelled as `Nat` (values below 256 where the source produces them),
byte strings as `List Nat`, and the PRF collaborator as a pure function
`key → message → output`.  The `derive` method of the `Kbkdf` trait is embedded
as one executable function; in addition to the output buffer the embedded run
records the message of every PRF round and the full trace of PRF invocations
(each entry is the message handed to a fresh PRF computation), so that claims
about message assembly and PRF call counts can be stated.
-/

namespace Kbkdf

/-- The single error kind of the crate (`Error::InvalidRequestSize`). -/
inductive Error where
  | InvalidRequestSize : Error
deriving DecidableEq, Repr

/-- The parameters of one `derive` call that are independent of the mode and of
the size parameters: the PRF collaborator, the input keying material `kin`, the
four boolean switches, the label and the context. -/
structure Params where
  prf : List Nat → List Nat → List Nat
  kin : List Nat
  use_l : Bool
  use_separator : Bool
  use_counter : Bool
  label : List Nat
  context : List Nat

/-- The three mode variants.  `feedbackMode` carries the optional IV, exactly
as `Feedback<'a, Prf, K, R>` stores `iv: Option<&Array<u8, Prf::OutputSize>>`;
the other two modes have no IV. -/
inductive Mode where
  | counterMode : Mode
  | feedbackMode : Option (List Nat) → Mode
  | doublePipelineMode : Mode

/-- The associated constant `FEEDBACK_KI`: `false` by default, `true` for
`Feedback`. -/
def Mode.FEEDBACK_KI : Mode → Bool
  | .feedbackMode _ => true
  | _ => false

/-- The associated constant `DOUBLE_PIPELINE`: `false` by default, `true` for
`DoublePipeline`. -/
def Mode.DOUBLE_PIPELINE : Mode → Bool
  | .doublePipelineMode => true
  | _ => false

/-- The `input_iv` hook: the value of `ki` after `self.input_iv(&mut ki)` runs
on the initial `ki = None`.  The default hook leaves it `None`; `Feedback`
sets it to the IV when one was supplied. -/
def Mode.inputIV : Mode → Option (List Nat)
  | .feedbackMode iv => iv
  | _ => none

/-- `u32::div_ceil`: exact integer ceiling division, as the source's
`L.div_ceil(H)` computes it (quotient plus one when the remainder is
nonzero). -/
def divCeil (a b : Nat) : Nat :=
  a / b + (if a % b = 0 then 0 else 1)

/-- `u32::to_be_bytes`: the 4-byte big-endian encoding of a 32-bit value. -/
def beBytes32 (x : Nat) : List Nat :=
  [x / 2 ^ 24 % 256, x / 2 ^ 16 % 256, x / 2 ^ 8 % 256, x % 256]

/-- Big-endian decoding of a byte string, used to state that the truncated
counter encoding still determines the round number. -/
def beDecode (bs : List Nat) : Nat :=
  bs.foldl (fun acc b => acc * 256 + b) 0

/-- The message of the round keyed by `counter`, given the current feedback
chaining value `fb` (the source's `ki`) and the current pipeline value `a`:
the source's sequence of `h.update(..)` calls in the loop body
(lines 118–152 of `src/kbkdf/src/lib.rs`), with `R` the counter width in
bytes and `K * 8` the value `L`. -/
def msgOf (mode : Mode) (p : Params) (K R : Nat) (fb : Option (List Nat))
    (a : List Nat) (counter : Nat) : List Nat :=
  (if mode.FEEDBACK_KI then (match fb with | some k => k | none => []) else [])
    ++ (if mode.DOUBLE_PIPELINE then a else [])
    ++ (if p.use_counter then (beBytes32 counter).drop (4 - R) else [])
    ++ p.label
    ++ (if p.use_separator then [0] else [])
    ++ p.context
    ++ (if p.use_l then beBytes32 (K * 8) else [])

/-- The message of the initial pipeline-value computation (lines 99–107):
`label [‖ 0x00] ‖ context`, with no length field. -/
def initMsg (p : Params) : List Nat :=
  p.label ++ (if p.use_separator then [0] else []) ++ p.context

/-- The state threaded through the round loop: the pipeline value `a`, the
feedback value `ki`, the bytes written to the output buffer so far, the list
of round messages so far, and the trace of every PRF computation's message in
invocation order. -/
structure RoundState where
  a : List Nat
  ki : Option (List Nat)
  out : List Nat
  msgs : List (List Nat)
  trace : List (List Nat)

/-- The loop `for counter in 1..=n` of `derive`, with `fuel` remaining
iterations.  Each iteration recomputes `a` when `counter > 1`, assembles the
round message, finalizes the PRF to `buf`, stores `buf` as the new feedback
value, and copies `min(buf.len(), remaining)` bytes into the output. -/
def runRounds (mode : Mode) (p : Params) (K R : Nat) :
    Nat → Nat → RoundState → RoundState
  | 0, _, st => st
  | fuel + 1, counter, st =>
    let a := if 1 < counter then p.prf p.kin st.a else st.a
    let trace1 := if 1 < counter then st.trace ++ [st.a] else st.trace
    let msg := msgOf mode p K R st.ki a counter
    let buf := p.prf p.kin msg
    let taken := min buf.length (K - st.out.length)
    runRounds mode p K R fuel (counter + 1)
      ⟨a, some buf, st.out ++ buf.take taken, st.msgs ++ [msg], trace1 ++ [msg]⟩

/-- The embedded `Kbkdf::derive`, instrumented: `K` is the requested output
length in bytes, `H` the PRF output length in bytes, `R` the counter width in
bytes (the source's type parameter `R` divided by 8; `2usize.pow(R::U32)` is
`2 ^ (8 * R)`).  On success the whole final loop state is returned. -/
def deriveRun (mode : Mode) (p : Params) (K H R : Nat) :
    Except Error RoundState :=
  let n := divCeil (K * 8) (H * 8)
  if 2 ^ (8 * R) - 1 < n then
    .error .InvalidRequestSize
  else
    let a := p.prf p.kin (initMsg p)
    .ok (runRounds mode p K R n 1 ⟨a, mode.inputIV, [], [], [initMsg p]⟩)

/-- `Kbkdf::derive`: the output buffer on success, the error otherwise. -/
def derive (mode : Mode) (p : Params) (K H R : Nat) :
    Except Error (List Nat) :=
  (deriveRun mode p K H R).map (fun st => st.out)

/-- The round messages of a `derive` call (empty when the call fails before
the loop). -/
def deriveMsgs (mode : Mode) (p : Params) (K H R : Nat) : List (List Nat) :=
  match deriveRun mode p K H R with
  | .error _ => []
  | .ok st => st.msgs

/-- The messages of all PRF computations started by a `derive` call, in
invocation order (empty when the call fails before the loop). -/
def deriveTrace (mode : Mode) (p : Params) (K H R : Nat) : List (List Nat) :=
  match deriveRun mode p K H R with
  | .error _ => []
  | .ok st => st.trace

/-- The number of PRF computations started by a `derive` call. -/
def derivePrfCalls (mode : Mode) (p : Params) (K H R : Nat) : Nat :=
  (deriveTrace mode p K H R).length

/-- Closed form of the pipeline chaining value used by round `i ≥ 1`:
`aVal p 1` is the initial value, and each later round first applies the PRF
once more.  (`aVal p 0` is set to the initial value as well, so that the value
held in the state on entry to round `c` is `aVal p (c - 1)`.) -/
def aVal (p : Params) : Nat → List Nat
  | 0 => p.prf p.kin (initMsg p)
  | 1 => p.prf p.kin (initMsg p)
  | i + 2 => p.prf p.kin (aVal p (i + 1))

/-- Closed form of the output of round `i ≥ 1` (`roundOut 0` is a dummy):
round 1's feedback value is the mode's IV hook, round `i + 1`'s is round `i`'s
output. -/
def roundOut (mode : Mode) (p : Params) (K R : Nat) : Nat → List Nat
  | 0 => []
  | 1 => p.prf p.kin (msgOf mode p K R mode.inputIV (aVal p 1) 1)
  | i + 2 =>
    p.prf p.kin
      (msgOf mode p K R (some (roundOut mode p K R (i + 1))) (aVal p (i + 2)) (i + 2))

/-- Closed form of the feedback chaining value on entry to round `i ≥ 1`. -/
def fbOf (mode : Mode) (p : Params) (K R : Nat) : Nat → Option (List Nat)
  | 0 => mode.inputIV
  | 1 => mode.inputIV
  | i + 2 => some (roundOut mode p K R (i + 1))

/-- Modelled from the spec: the round message of the optimized variant that an
implementer "may treat as an optimization opportunity": identical to the
engine's message except that the pipeline term is gone because the pipeline
value is never computed.  Meaningful only for modes that do not use pipeline
chaining. -/
def msgOfOpt (mode : Mode) (p : Params) (K R : Nat) (fb : Option (List Nat))
    (counter : Nat) : List Nat :=
  (if mode.FEEDBACK_KI then (match fb with | some k => k | none => []) else [])
    ++ (if p.use_counter then (beBytes32 counter).drop (4 - R) else [])
    ++ p.label
    ++ (if p.use_separator then [0] else [])
    ++ p.context
    ++ (if p.use_l then beBytes32 (K * 8) else [])

/-- Modelled from the spec: the loop of the optimized variant, carrying only
the feedback value and the output bytes — no pipeline value `A` is ever
computed, neither initially nor per round. -/
def runRoundsOpt (mode : Mode) (p : Params) (K R : Nat) :
    Nat → Nat → Option (List Nat) × List Nat → Option (List Nat) × List Nat
  | 0, _, st => st
  | fuel + 1, counter, st =>
    let msg := msgOfOpt mode p K R st.1 counter
    let buf := p.prf p.kin msg
    let taken := min buf.length (K - st.2.length)
    runRoundsOpt mode p K R fuel (counter + 1) (some buf, st.2 ++ buf.take taken)

/-- Modelled from the spec: the optimized variant of `derive` that skips the
pipeline value `A` entirely (no initial computation and no per-round
recomputation), as the spec describes for non-pipeline modes. -/
def deriveOpt (mode : Mode) (p : Params) (K H R : Nat) :
    Except Error (List Nat) :=
  let n := divCeil (K * 8) (H * 8)
  if 2 ^ (8 * R) - 1 < n then
    .error .InvalidRequestSize
  else
    .ok (runRoundsOpt mode p K R n 1 (mode.inputIV, [])).2

/-- A concrete PRF stub with a one-byte output, used to instantiate proved
theorems at concrete inputs. -/
def onePrf : List Nat → List Nat → List Nat := fun _ _ => [0]

/-- Concrete parameters over `onePrf`: counter switch on, length and
separator switches off, label `[2]`, context `[3]`. -/
def exParams : Params :=
  ⟨onePrf, [1], false, false, true, [2], [3]⟩

/-- Concrete parameters over `onePrf` with every switch on. -/
def exParamsAll : Params :=
  ⟨onePrf, [1], true, true, true, [2], [3]⟩

/-- A second parameter record, field-wise identical to `exParams`. -/
def exParamsCopy : Params :=
  ⟨onePrf, [1], false, false, true, [2], [3]⟩

/-- `divCeil` rounds up: `divCeil a b` blocks of size `b` cover `a`. -/
theorem divCeil_le_mul (a b : Nat) (hb : 0 < b) : a ≤ divCeil a b * b := by
  unfold divCeil
  by_cases h : a % b = 0
  · simp only [h, if_pos rfl, Nat.add_zero]
    conv_lhs => rw [← Nat.div_add_mod a b]
    simp [h, Nat.mul_comm]
  · rw [if_neg h, Nat.succ_mul]
    have h1 : a / b * b + a % b = a := by
      rw [Nat.mul_comm]
      exact Nat.div_add_mod a b
    have h2 : a % b < b := Nat.mod_lt a hb
    set t := a / b * b with ht
    omega

/-- `divCeil a b` never exceeds `a` (for any `b`, including the degenerate
`b = 0` of the embedding). -/
theorem divCeil_le_self (a b : Nat) : divCeil a b ≤ a := by
  unfold divCeil
  by_cases h : a % b = 0
  · simpa [h] using Nat.div_le_self a b
  · rw [if_neg h]
    have ha : a ≠ 0 := by
      intro h0
      exact h (by simp [h0])
    rcases Nat.eq_zero_or_pos b with hb | hb
    · subst hb
      simp only [Nat.div_zero]
      omega
    · rcases Nat.lt_or_ge b 2 with hb2 | hb2
      · interval_cases b
        simp [Nat.mod_one] at h
      · have hlt := Nat.div_lt_self (Nat.pos_of_ne_zero ha) hb2
        omega

/-- Consequence of the round-count formula: `n` PRF outputs of `H` bytes
cover the `K` output bytes. -/
theorem le_rounds_mul (K H : Nat) (hH : 0 < H) :
    K ≤ divCeil (K * 8) (H * 8) * H := by
  have h8 : 0 < H * 8 := by omega
  have h := divCeil_le_mul (K * 8) (H * 8) h8
  have hr : divCeil (K * 8) (H * 8) * (H * 8) = divCeil (K * 8) (H * 8) * H * 8 := by
    ring
  rw [hr] at h
  omega

/-- The closed-form round output is the PRF of the closed-form round
message. -/
theorem roundOut_eq (mode : Mode) (p : Params) (K R c : Nat) (hc : 1 ≤ c) :
    roundOut mode p K R c =
      p.prf p.kin (msgOf mode p K R (fbOf mode p K R c) (aVal p c) c) := by
  match c, hc with
  | 1, _ => rfl
  | c + 2, _ => rfl

/-- Stepping the pipeline value held on entry to round `c` (namely
`aVal p (c - 1)`) through the `counter > 1` recomputation yields the value
round `c` uses. -/
theorem aVal_step (p : Params) (c : Nat) (hc : 1 ≤ c) :
    (if 1 < c then p.prf p.kin (aVal p (c - 1)) else aVal p (c - 1)) =
      aVal p c := by
  match c, hc with
  | 1, _ => simp [aVal]
  | c + 2, _ =>
    rw [if_pos (by omega)]
    rfl

/-- The feedback value on entry to round `c + 1` is round `c`'s output. -/
theorem fbOf_succ (mode : Mode) (p : Params) (K R c : Nat) (hc : 1 ≤ c) :
    fbOf mode p K R (c + 1) = some (roundOut mode p K R c) := by
  match c, hc with
  | c + 1, _ => rfl

/-- Loop invariant for the round messages: starting the loop at round `c`
with the chaining state of round `c`, the messages recorded over `fuel`
further rounds are the closed-form messages of rounds `c, …, c + fuel - 1`. -/
theorem runRounds_msgs (mode : Mode) (p : Params) (K R : Nat) :
    ∀ (fuel c : Nat) (st : RoundState), 1 ≤ c →
      st.a = aVal p (c - 1) →
      st.ki = fbOf mode p K R c →
      (runRounds mode p K R fuel c st).msgs =
        st.msgs ++ (List.range' c fuel).map
          (fun i => msgOf mode p K R (fbOf mode p K R i) (aVal p i) i) := by
  intro fuel
  induction fuel with
  | zero =>
    intro c st _ _ _
    simp [runRounds]
  | succ fuel ih =>
    intro c st hc ha hki
    have hstep : (if 1 < c then p.prf p.kin st.a else st.a) = aVal p c := by
      rw [ha]
      exact aVal_step p c hc
    simp only [runRounds]
    rw [hstep, hki]
    rw [ih (c + 1) _ (by omega) rfl
      (by rw [fbOf_succ mode p K R c hc, roundOut_eq mode p K R c hc])]
    rw [List.range'_succ]
    simp

/-- Loop invariant for the output length: with a PRF of fixed output length
`H`, each round adds `min H (K - filled)` bytes, so `fuel` rounds land on
`min (filled + fuel * H) K`. -/
theorem runRounds_out_length (mode : Mode) (p : Params) (K R H : Nat)
    (hprf : ∀ k m, (p.prf k m).length = H) :
    ∀ (fuel c : Nat) (st : RoundState), st.out.length ≤ K →
      (runRounds mode p K R fuel c st).out.length =
        min (st.out.length + fuel * H) K := by
  intro fuel
  induction fuel with
  | zero =>
    intro c st h
    simp only [runRounds, Nat.zero_mul, Nat.add_zero]
    omega
  | succ fuel ih =>
    intro c st h
    simp only [runRounds]
    rw [ih (c + 1) _ (by simp only [List.length_append, List.length_take, hprf]; omega)]
    simp only [List.length_append, List.length_take, hprf]
    rw [Nat.succ_mul]
    omega

/-- For `counter ≥ 2` every iteration starts exactly two PRF computations:
the pipeline recomputation and the round itself. -/
theorem runRounds_trace_length (mode : Mode) (p : Params) (K R : Nat) :
    ∀ (fuel c : Nat) (st : RoundState), 2 ≤ c →
      (runRounds mode p K R fuel c st).trace.length =
        st.trace.length + 2 * fuel := by
  intro fuel
  induction fuel with
  | zero =>
    intro c st _
    simp [runRounds]
  | succ fuel ih =>
    intro c st hc
    simp only [runRounds, if_pos (show 1 < c by omega)]
    rw [ih (c + 1) _ (by omega)]
    simp only [List.length_append, List.length_singleton]
    omega

/-- The first entry of a nonempty list survives appending. -/
theorem getD_zero_append (l l' : List (List Nat)) (h : l ≠ []) :
    (l ++ l').getD 0 [] = l.getD 0 [] := by
  cases l with
  | nil => exact absurd rfl h
  | cons x xs => rfl

/-- The loop only appends to the trace, so a nonempty trace keeps its first
entry and stays nonempty. -/
theorem runRounds_trace_head (mode : Mode) (p : Params) (K R : Nat)
    (v : List Nat) :
    ∀ (fuel c : Nat) (st : RoundState), st.trace.getD 0 [] = v →
      st.trace ≠ [] →
      (runRounds mode p K R fuel c st).trace.getD 0 [] = v
        ∧ (runRounds mode p K R fuel c st).trace ≠ [] := by
  intro fuel
  induction fuel with
  | zero =>
    intro c st hv h
    exact ⟨hv, h⟩
  | succ fuel ih =>
    intro c st hv h
    simp only [runRounds]
    apply ih (c + 1)
    · show ((if 1 < c then st.trace ++ [st.a] else st.trace) ++ _).getD 0 [] = v
      by_cases hc : 1 < c
      · rw [if_pos hc, getD_zero_append _ _ (by simp [h]),
          getD_zero_append _ _ h]
        exact hv
      · rw [if_neg hc, getD_zero_append _ _ h]
        exact hv
    · show (if 1 < c then st.trace ++ [st.a] else st.trace) ++ _ ≠ []
      simp

/-- When the feasibility check passes, `deriveRun` is the loop started at
round 1 on the initial state. -/
theorem deriveRun_eq_ok (mode : Mode) (p : Params) (K H R : Nat)
    (hn : divCeil (K * 8) (H * 8) ≤ 2 ^ (8 * R) - 1) :
    deriveRun mode p K H R =
      .ok (runRounds mode p K R (divCeil (K * 8) (H * 8)) 1
        ⟨p.prf p.kin (initMsg p), mode.inputIV, [], [], [initMsg p]⟩) := by
  unfold deriveRun
  rw [if_neg (by omega)]

/-- Master characterization of the round messages: on a feasible call, the
message of round `i` (for `1 ≤ i ≤ n`) is the closed-form message built from
the closed-form feedback and pipeline values. -/
theorem deriveMsgs_getD (mode : Mode) (p : Params) (K H R i : Nat)
    (hn : divCeil (K * 8) (H * 8) ≤ 2 ^ (8 * R) - 1)
    (h1 : 1 ≤ i) (h2 : i ≤ divCeil (K * 8) (H * 8)) :
    (deriveMsgs mode p K H R).getD (i - 1) [] =
      msgOf mode p K R (fbOf mode p K R i) (aVal p i) i := by
  unfold deriveMsgs
  rw [deriveRun_eq_ok mode p K H R hn]
  dsimp only
  rw [runRounds_msgs mode p K R (divCeil (K * 8) (H * 8)) 1 _ (by omega) rfl rfl]
  rw [List.nil_append, List.getD_eq_getElem?_getD, List.getElem?_map,
    List.getElem?_range' 1 1 (show i - 1 < divCeil (K * 8) (H * 8) by omega)]
  have hi : 1 + 1 * (i - 1) = i := by omega
  rw [hi]
  rfl

/-- On a feasible call the first PRF computation's message is
`label ‖ [0x00 if separator] ‖ context`, and at least one PRF computation is
started, in every mode. -/
theorem deriveTrace_head (mode : Mode) (p : Params) (K H R : Nat)
    (hn : divCeil (K * 8) (H * 8) ≤ 2 ^ (8 * R) - 1) :
    (deriveTrace mode p K H R).getD 0 [] = initMsg p
      ∧ deriveTrace mode p K H R ≠ [] := by
  unfold deriveTrace
  rw [deriveRun_eq_ok mode p K H R hn]
  dsimp only
  exact runRounds_trace_head mode p K R (initMsg p)
    (divCeil (K * 8) (H * 8)) 1 _ rfl (by simp)

/-- On a feasible call with at least one round, the total number of PRF
computations started is `2 n`: the initial pipeline value, one pipeline
recomputation in each of rounds `2…n`, and one per-round finalization. -/
theorem derivePrfCalls_eq (mode : Mode) (p : Params) (K H R : Nat)
    (hn : divCeil (K * 8) (H * 8) ≤ 2 ^ (8 * R) - 1)
    (h1 : 1 ≤ divCeil (K * 8) (H * 8)) :
    derivePrfCalls mode p K H R = 2 * divCeil (K * 8) (H * 8) := by
  unfold derivePrfCalls deriveTrace
  rw [deriveRun_eq_ok mode p K H R hn]
  dsimp only
  obtain ⟨m, hm⟩ : ∃ m, divCeil (K * 8) (H * 8) = m + 1 :=
    ⟨divCeil (K * 8) (H * 8) - 1, by omega⟩
  rw [hm]
  simp only [runRounds, if_neg (show ¬(1 : Nat) < 1 by omega)]
  rw [runRounds_trace_length mode p K R m 2 _ (by omega)]
  simp only [List.length_append, List.length_singleton, List.length_cons,
    List.length_nil]
  omega

/-- With pipeline chaining off, the loop's output ignores the pipeline value
and coincides with the optimized loop's output. -/
theorem runRounds_out_opt (mode : Mode) (p : Params) (K R : Nat)
    (hdp : mode.DOUBLE_PIPELINE = false) :
    ∀ (fuel c : Nat) (st : RoundState),
      (runRounds mode p K R fuel c st).out =
        (runRoundsOpt mode p K R fuel c (st.ki, st.out)).2 := by
  intro fuel
  induction fuel with
  | zero =>
    intro c st
    simp [runRounds, runRoundsOpt]
  | succ fuel ih =>
    intro c st
    simp only [runRounds, runRoundsOpt]
    have hmsg : msgOf mode p K R st.ki (if 1 < c then p.prf p.kin st.a else st.a) c
        = msgOfOpt mode p K R st.ki c := by
      unfold msgOf msgOfOpt
      rw [hdp]
      simp
    rw [hmsg]
    exact ih (c + 1) _

/-- Truncating the 4-byte big-endian form to the low `R` bytes loses no
information below `2 ^ (8 R)`: big-endian decoding recovers the value. -/
theorem beDecode_beBytes32_drop (R i : Nat) (hR1 : 1 ≤ R) (hR4 : R ≤ 4)
    (hi : i < 2 ^ (8 * R)) :
    beDecode ((beBytes32 i).drop (4 - R)) = i := by
  interval_cases R <;>
    simp only [beBytes32, beDecode, List.drop, List.foldl] <;>
    norm_num at hi ⊢ <;>
    omega

/-- Claim C1: `derive` fails, with the single error `InvalidRequestSize`,
exactly when the round count `n = ⌈(K⋅8)/(H⋅8)⌉` — computed by exact integer
ceiling division — exceeds `2 ^ (8 R) - 1` for the counter width `R`; the
check precedes all cryptographic work, so on error no PRF computation is
started and no output is produced. -/
theorem derive_error_iff (mode : Mode) (p : Params) (K H R : Nat) :
    (derive mode p K H R = Except.error Error.InvalidRequestSize ↔
      2 ^ (8 * R) - 1 < divCeil (K * 8) (H * 8))
    ∧ (2 ^ (8 * R) - 1 < divCeil (K * 8) (H * 8) →
        derivePrfCalls mode p K H R = 0) := by
  constructor
  · by_cases h : 2 ^ (8 * R) - 1 < divCeil (K * 8) (H * 8)
    · refine ⟨fun _ => h, fun _ => ?_⟩
      unfold derive deriveRun
      rw [if_pos h]
      rfl
    · refine ⟨fun he => ?_, fun hlt => absurd hlt h⟩
      unfold derive at he
      rw [deriveRun_eq_ok mode p K H R (by omega)] at he
      exact absurd he (by simp [Except.map])
  · intro h
    unfold derivePrfCalls deriveTrace deriveRun
    simp [h]

/-- Claim C1 witness: `K = 256`, `H = 1`, `R = 1` gives `n = 256 > 255`, and
`derive` fails. -/
theorem derive_error_iff_witness :
    derive Mode.counterMode exParams 256 1 1 =
      Except.error Error.InvalidRequestSize :=
  (derive_error_iff Mode.counterMode exParams 256 1 1).1.mpr (by decide)

/-- Claim C2: for every `(K, H, R)` with `⌈(K⋅8)/(H⋅8)⌉ ≤ 2 ^ (8 R) - 1` (and
a PRF honouring its fixed output length `H > 0`), `derive` returns `Ok` with
exactly `K` bytes: the loop fills the buffer completely, so the post-loop
assertion `remaining == 0` cannot fire. -/
theorem derive_ok_length (mode : Mode) (p : Params) (K H R : Nat)
    (hprf : ∀ k m, (p.prf k m).length = H) (hH : 0 < H)
    (hn : divCeil (K * 8) (H * 8) ≤ 2 ^ (8 * R) - 1) :
    ∃ out, derive mode p K H R = Except.ok out ∧ out.length = K := by
  refine ⟨(runRounds mode p K R (divCeil (K * 8) (H * 8)) 1
      ⟨p.prf p.kin (initMsg p), mode.inputIV, [], [], [initMsg p]⟩).out, ?_, ?_⟩
  · unfold derive
    rw [deriveRun_eq_ok mode p K H R hn]
    rfl
  · rw [runRounds_out_length mode p K R H hprf (divCeil (K * 8) (H * 8)) 1 _
      (by simp)]
    have hmul := le_rounds_mul K H hH
    simp only [List.length_nil, Nat.zero_add]
    omega

/-- Claim C2 witness: `K = 2`, `H = 1`, `R = 1` is feasible and yields two
bytes. -/
theorem derive_ok_length_witness :
    ∃ out, derive Mode.counterMode exParams 2 1 1 = Except.ok out
      ∧ out.length = 2 :=
  derive_ok_length Mode.counterMode exParams 2 1 1 (fun _ _ => rfl)
    (by decide) (by decide)

/-- Claim C3: for every round `1 ≤ i ≤ n` of a feasible call, the PRF message
of round `i` is, in order: the feedback value (only in feedback-chaining mode,
and only when present), then the pipeline value (only in pipeline-chaining
mode), then the truncated counter field when `use_counter`, then the label,
then a single `0x00` when `use_separator`, then the context, then the
big-endian 32-bit encoding of `L = K⋅8` when `use_l`. -/
theorem derive_round_message (mode : Mode) (p : Params) (K H R i : Nat)
    (hn : divCeil (K * 8) (H * 8) ≤ 2 ^ (8 * R) - 1)
    (h1 : 1 ≤ i) (h2 : i ≤ divCeil (K * 8) (H * 8)) :
    (deriveMsgs mode p K H R).getD (i - 1) [] =
      (if mode.FEEDBACK_KI then (fbOf mode p K R i).getD [] else [])
        ++ (if mode.DOUBLE_PIPELINE then aVal p i else [])
        ++ (if p.use_counter then (beBytes32 i).drop (4 - R) else [])
        ++ p.label
        ++ (if p.use_separator then [0] else [])
        ++ p.context
        ++ (if p.use_l then beBytes32 (K * 8) else []) := by
  rw [deriveMsgs_getD mode p K H R i hn h1 h2]
  unfold msgOf
  rcases fbOf mode p K R i with _ | fb <;> rfl

/-- Claim C3 witness: round 2 of a two-round Counter-mode call. -/
theorem derive_round_message_witness :
    (deriveMsgs Mode.counterMode exParams 2 1 1).getD (2 - 1) [] =
      [2, 2, 3] :=
  (derive_round_message Mode.counterMode exParams 2 1 1 2 (by decide)
    (by decide) (by decide)).trans (by decide)

/-- Claim C4: when `use_counter` is set, round `i`'s message carries, after
the chaining terms, the big-endian 32-bit encoding of `i` truncated to its
low `R` bytes — and (given the feasibility bound) those `R` bytes still
decode back to `i`. -/
theorem derive_counter_encoding (mode : Mode) (p : Params) (K H R i : Nat)
    (hctr : p.use_counter = true) (hR1 : 1 ≤ R) (hR4 : R ≤ 4)
    (hn : divCeil (K * 8) (H * 8) ≤ 2 ^ (8 * R) - 1)
    (h1 : 1 ≤ i) (h2 : i ≤ divCeil (K * 8) (H * 8)) :
    (deriveMsgs mode p K H R).getD (i - 1) [] =
      (if mode.FEEDBACK_KI then (fbOf mode p K R i).getD [] else [])
        ++ (if mode.DOUBLE_PIPELINE then aVal p i else [])
        ++ (beBytes32 i).drop (4 - R)
        ++ p.label
        ++ (if p.use_separator then [0] else [])
        ++ p.context
        ++ (if p.use_l then beBytes32 (K * 8) else [])
      ∧ beDecode ((beBytes32 i).drop (4 - R)) = i := by
  constructor
  · rw [deriveMsgs_getD mode p K H R i hn h1 h2]
    unfold msgOf
    rw [hctr]
    rcases fbOf mode p K R i with _ | fb <;> simp
  · apply beDecode_beBytes32_drop R i hR1 hR4
    have hpow : 1 ≤ 2 ^ (8 * R) := Nat.one_le_two_pow
    omega

/-- Claim C4 witness: round 2 with `R = 1` carries counter byte `2`, which
decodes back to `2`. -/
theorem derive_counter_encoding_witness :
    (deriveMsgs Mode.counterMode exParams 2 1 1).getD (2 - 1) [] = [2, 2, 3]
      ∧ beDecode ((beBytes32 2).drop (4 - 1)) = 2 := by
  obtain ⟨ha, hb⟩ := derive_counter_encoding Mode.counterMode exParams 2 1 1 2
    rfl (by decide) (by decide) (by decide) (by decide) (by decide)
  exact ⟨ha.trans (by decide), hb⟩

/-- Claim C5: on every feasible call, in every mode, a PRF computation over
`label ‖ [0x00 if separator] ‖ context` is started first — the initial
pipeline value `A` is the PRF of exactly that message, with no length field
even when `use_l` is set — and at least one PRF computation is always
started, including in Counter and Feedback modes. -/
theorem derive_initial_pipeline (mode : Mode) (p : Params) (K H R : Nat)
    (hn : divCeil (K * 8) (H * 8) ≤ 2 ^ (8 * R) - 1) :
    (deriveTrace mode p K H R).getD 0 [] =
        p.label ++ (if p.use_separator then [0] else []) ++ p.context
      ∧ 1 ≤ (deriveTrace mode p K H R).length
      ∧ aVal p 1 = p.prf p.kin
          (p.label ++ (if p.use_separator then [0] else []) ++ p.context) := by
  obtain ⟨h1, h2⟩ := deriveTrace_head mode p K H R hn
  exact ⟨h1, List.length_pos.mpr h2, rfl⟩

/-- Claim C5 witness: Double-Pipeline mode with every switch on — the first
PRF message is `label ‖ 0x00 ‖ context` without the length field. -/
theorem derive_initial_pipeline_witness :
    (deriveTrace Mode.doublePipelineMode exParamsAll 2 1 1).getD 0 [] =
        [2, 0, 3]
      ∧ 1 ≤ (deriveTrace Mode.doublePipelineMode exParamsAll 2 1 1).length := by
  obtain ⟨h1, h2, _⟩ := derive_initial_pipeline Mode.doublePipelineMode
    exParamsAll 2 1 1 (by decide)
  exact ⟨h1.trans (by decide), h2⟩

/-- Claim C6: in Feedback mode, round 1's message starts with the
caller-supplied IV when one was given and has no feedback term at all when
none was given, while every round `i ≥ 2` starts with round `i - 1`'s full
PRF output regardless of the IV. -/
theorem derive_feedback_chaining (p : Params) (K H R : Nat) (v : List Nat)
    (iv : Option (List Nat)) (i : Nat)
    (hn : divCeil (K * 8) (H * 8) ≤ 2 ^ (8 * R) - 1)
    (hn1 : 1 ≤ divCeil (K * 8) (H * 8)) :
    (deriveMsgs (Mode.feedbackMode (some v)) p K H R).getD 0 [] =
        v ++ (if p.use_counter then (beBytes32 1).drop (4 - R) else [])
          ++ p.label ++ (if p.use_separator then [0] else []) ++ p.context
          ++ (if p.use_l then beBytes32 (K * 8) else [])
      ∧ (deriveMsgs (Mode.feedbackMode none) p K H R).getD 0 [] =
          (if p.use_counter then (beBytes32 1).drop (4 - R) else [])
            ++ p.label ++ (if p.use_separator then [0] else []) ++ p.context
            ++ (if p.use_l then beBytes32 (K * 8) else [])
      ∧ (2 ≤ i → i ≤ divCeil (K * 8) (H * 8) →
          (deriveMsgs (Mode.feedbackMode iv) p K H R).getD (i - 1) [] =
            roundOut (Mode.feedbackMode iv) p K R (i - 1)
              ++ (if p.use_counter then (beBytes32 i).drop (4 - R) else [])
              ++ p.label ++ (if p.use_separator then [0] else []) ++ p.context
              ++ (if p.use_l then beBytes32 (K * 8) else [])) := by
  refine ⟨?_, ?_, ?_⟩
  · have h := deriveMsgs_getD (Mode.feedbackMode (some v)) p K H R 1 hn
      (by omega) hn1
    simpa [msgOf, Mode.FEEDBACK_KI, Mode.DOUBLE_PIPELINE, fbOf, Mode.inputIV,
      List.append_assoc] using h
  · have h := deriveMsgs_getD (Mode.feedbackMode none) p K H R 1 hn
      (by omega) hn1
    simpa [msgOf, Mode.FEEDBACK_KI, Mode.DOUBLE_PIPELINE, fbOf, Mode.inputIV,
      List.append_assoc] using h
  · intro h2 hi
    have h := deriveMsgs_getD (Mode.feedbackMode iv) p K H R i hn
      (by omega) hi
    have hfb : fbOf (Mode.feedbackMode iv) p K R i =
        some (roundOut (Mode.feedbackMode iv) p K R (i - 1)) := by
      have hs := fbOf_succ (Mode.feedbackMode iv) p K R (i - 1) (by omega)
      rwa [show i - 1 + 1 = i by omega] at hs
    rw [h, hfb]
    unfold msgOf
    simp [Mode.FEEDBACK_KI, Mode.DOUBLE_PIPELINE, List.append_assoc]

/-- Claim C6 witness: two-round Feedback call with IV `[9]`; round 1 carries
the IV (or nothing without an IV), round 2 carries round 1's output `[0]`. -/
theorem derive_feedback_chaining_witness :
    (deriveMsgs (Mode.feedbackMode (some [9])) exParamsAll 2 1 1).getD 0 [] =
        [9, 1, 2, 0, 3, 0, 0, 0, 16]
      ∧ (deriveMsgs (Mode.feedbackMode none) exParamsAll 2 1 1).getD 0 [] =
          [1, 2, 0, 3, 0, 0, 0, 16]
      ∧ (deriveMsgs (Mode.feedbackMode (some [9])) exParamsAll 2 1 1).getD
            (2 - 1) [] =
          [0, 2, 2, 0, 3, 0, 0, 0, 16] := by
  obtain ⟨h1, h2, h3⟩ := derive_feedback_chaining exParamsAll 2 1 1 [9]
    (some [9]) 2 (by decide) (by decide)
  exact ⟨h1.trans (by decide), h2.trans (by decide),
    (h3 (by decide) (by decide)).trans (by decide)⟩

/-- Claim C7, corrected: in the non-pipeline modes the dead pipeline value is
recomputed in every round after the first, so a feasible call with `n ≥ 1`
rounds starts `2 n` PRF computations — `n` more than the one-per-round
minimum, not one more. -/
theorem derive_prf_call_count (mode : Mode) (p : Params) (K H R : Nat)
    (hdp : mode.DOUBLE_PIPELINE = false)
    (hn : divCeil (K * 8) (H * 8) ≤ 2 ^ (8 * R) - 1)
    (h1 : 1 ≤ divCeil (K * 8) (H * 8)) :
    derivePrfCalls mode p K H R = 2 * divCeil (K * 8) (H * 8) :=
  derivePrfCalls_eq mode p K H R hn h1

/-- Claim C7 counterexample: with `K = 2`, `H = 1` (two rounds) in Counter
mode the engine starts 4 PRF computations, not `n + 1 = 3` as the claim
states. -/
theorem derive_prf_call_count_cex :
    derivePrfCalls Mode.counterMode exParams 2 1 1 ≠
      divCeil (2 * 8) (1 * 8) + 1 := by
  decide

/-- Claim C7 witness: the corrected count at `n = 2`: four PRF
computations. -/
theorem derive_prf_call_count_witness :
    derivePrfCalls Mode.counterMode exParams 2 1 1 =
      2 * divCeil (2 * 8) (1 * 8) :=
  derive_prf_call_count Mode.counterMode exParams 2 1 1 rfl (by decide)
    (by decide)

/-- Claim C8: in modes without pipeline chaining the pipeline value is
unobservable — `derive` returns exactly what the optimized variant that never
computes it returns, on every input. -/
theorem derive_pipeline_unobservable (mode : Mode) (p : Params) (K H R : Nat)
    (hdp : mode.DOUBLE_PIPELINE = false) :
    derive mode p K H R = deriveOpt mode p K H R := by
  unfold derive deriveRun deriveOpt
  by_cases h : 2 ^ (8 * R) - 1 < divCeil (K * 8) (H * 8)
  · rw [if_pos h, if_pos h]
    rfl
  · rw [if_neg h, if_neg h]
    dsimp only [Except.map]
    exact congrArg Except.ok
      (runRounds_out_opt mode p K R hdp (divCeil (K * 8) (H * 8)) 1 _)

/-- Claim C8 witness: Counter mode at `K = 2`, `H = 1`, `R = 1`. -/
theorem derive_pipeline_unobservable_witness :
    derive Mode.counterMode exParams 2 1 1 =
      deriveOpt Mode.counterMode exParams 2 1 1 :=
  derive_pipeline_unobservable Mode.counterMode exParams 2 1 1 rfl

/-- Claim C9: `derive` is deterministic — two calls agreeing on the PRF, key,
the four switches, label, context and mode (including the Feedback IV) return
identical results. -/
theorem derive_deterministic (mode1 mode2 : Mode) (p1 p2 : Params)
    (K H R : Nat) (hm : mode1 = mode2) (hprf : p1.prf = p2.prf)
    (hkin : p1.kin = p2.kin) (hl : p1.use_l = p2.use_l)
    (hsep : p1.use_separator = p2.use_separator)
    (hctr : p1.use_counter = p2.use_counter)
    (hlab : p1.label = p2.label) (hctx : p1.context = p2.context) :
    derive mode1 p1 K H R = derive mode2 p2 K H R := by
  have hp : p1 = p2 := by
    cases p1
    cases p2
    simp only at hprf hkin hl hsep hctr hlab hctx
    subst hprf hkin hl hsep hctr hlab hctx
    rfl
  rw [hm, hp]

/-- Claim C9 witness: two field-wise identical parameter records yield the
same output. -/
theorem derive_deterministic_witness :
    derive Mode.counterMode exParams 2 1 1 =
      derive Mode.counterMode exParamsCopy 2 1 1 :=
  derive_deterministic Mode.counterMode Mode.counterMode exParams exParamsCopy
    2 1 1 rfl rfl rfl rfl rfl rfl rfl rfl

/-- Claim C10: with the widest counter width `R = 4` bytes (the `U32`
default), `derive` never fails: the round count fits `u32` (as `L = K⋅8` is a
`u32` quantity), so the feasibility check always passes. -/
theorem derive_u32_never_fails (mode : Mode) (p : Params) (K H : Nat)
    (hK : K * 8 < 2 ^ 32) (hH : 0 < H) :
    ∃ out, derive mode p K H 4 = Except.ok out := by
  have hn : divCeil (K * 8) (H * 8) ≤ 2 ^ (8 * 4) - 1 := by
    have h1 := divCeil_le_self (K * 8) (H * 8)
    have h2 : (2 : Nat) ^ (8 * 4) = 4294967296 := by norm_num
    have h3 : (2 : Nat) ^ 32 = 4294967296 := by norm_num
    rw [h3] at hK
    rw [h2]
    omega
  refine ⟨(runRounds mode p K 4 (divCeil (K * 8) (H * 8)) 1
      ⟨p.prf p.kin (initMsg p), mode.inputIV, [], [], [initMsg p]⟩).out, ?_⟩
  unfold derive
  rw [deriveRun_eq_ok mode p K H 4 hn]
  rfl

/-- Claim C10 witness: `K = 2`, `H = 1`, `R = 4`. -/
theorem derive_u32_never_fails_witness :
    ∃ out, derive Mode.counterMode exParams 2 1 4 = Except.ok out :=
  derive_u32_never_fails Mode.counterMode exParams 2 1 (by decide) (by decide)

end Kbkdf
